import Mathlib

/-!
Verification of the MixIso workload-generation and performance-analysis
scripts against their design specification.

The definitions below are a shallow embedding of the Python sources in
`src/scripts/`:
  * `generate_random_workload.py` (Random Workload Generator),
  * `generate_bench_workload.py`  (Template Instantiator),
  * `allocate_random_workload.py` (Execution Harness and Control-Variable
    Analyzer).

Randomness is modelled by an explicit draw stream: a function `gen : ℕ → ℕ`
gives the raw draws of one seeded Mersenne-Twister stream, and a counter is
threaded through every definition exactly where the Python code consumes a
draw.  A two-argument `gen2 : ℕ → ℕ → ℕ` models `random.seed(case)` followed
by draws: `gen2 case` is the stream obtained from seed `case`.  Execution
times and percentages are modelled as exact rationals.
-/

deriving instance DecidableEq for Except

namespace MixIso

/-- Python 3 `round` on an exact rational value: round half to even, as used
by `round(self.total_txns * percentage)` in `generate_bench_workload.py`. -/
def pyRound (q : ℚ) : ℤ :=
  let f : ℤ := q.floor
  let r : ℚ := q - (f : ℚ)
  if r < 1/2 then f
  else if 1/2 < r then f + 1
  else if 2 ∣ f then f else f + 1

/-- `random.Random.randint(lo, hi)`: consumes one raw draw `gen c` and
returns a value in `[lo, hi]` (inclusive on both ends), together with the
advanced draw counter. -/
def randint (gen : ℕ → ℕ) (lo hi : ℕ) (c : ℕ) : ℕ × ℕ :=
  (lo + gen c % (hi + 1 - lo), c + 1)

/-- `random.choice(['READ', 'WRITE'])` in `generate_random_operations`:
consumes one raw draw and picks one of the two type strings. -/
def pyChoice2 (gen : ℕ → ℕ) (c : ℕ) : String × ℕ :=
  (if gen c % 2 = 0 then "READ" else "WRITE", c + 1)

/-- A concrete operation as written into workload files: the dictionaries
built with keys `id`, `type`, `key` throughout the generators. -/
structure Operation where
  id : ℤ
  type : String
  key : String
deriving DecidableEq, Repr

/-- A transaction as written into workload files: the dictionaries built
with keys `name`, `isolationLevel`, `operations`. -/
structure Transaction where
  name : String
  isolationLevel : String
  operations : List Operation
deriving DecidableEq, Repr

/-- A workload file body: `{'templates': transactions}`. -/
structure Workload where
  templates : List Transaction
deriving DecidableEq, Repr

/-- Loop body of `generate_read_only_operations` in
`generate_random_workload.py`: `for op_id in range(1, num_ops + 1)` draws a
key in `[1, max_key]` and emits a READ on `key_<n>`.  The first argument is
the number of remaining iterations, the second the current `op_id`. -/
def roOpsAux (gen : ℕ → ℕ) (maxKey : ℕ) : ℕ → ℕ → ℕ → List Operation × ℕ
  | 0, _, c => ([], c)
  | n+1, i, c =>
    let (k, c1) := randint gen 1 maxKey c
    let (rest, c2) := roOpsAux gen maxKey n (i+1) c1
    (⟨(i : ℤ), "READ", "key_" ++ toString k⟩ :: rest, c2)

/-- `generate_read_only_operations`: draw `num_ops` in `[1, max_ops]`, then
emit `num_ops` READ operations with ids `1..num_ops`. -/
def generate_read_only_operations (gen : ℕ → ℕ) (maxOps maxKey : ℕ) (c : ℕ) :
    List Operation × ℕ :=
  let (numOps, c1) := randint gen 1 maxOps c
  roOpsAux gen maxKey numOps 1 c1

/-- Loop body of `generate_random_operations`: per `op_id` draw a type with
`random.choice(['READ', 'WRITE'])`, then a key in `[1, max_key]`; the source
then branches on `op_type == 'UPDATE'` (emitting a READ/WRITE pair) even
though the choice can never produce `'UPDATE'`. -/
def randOpsAux (gen : ℕ → ℕ) (maxKey : ℕ) : ℕ → ℕ → ℕ → List Operation × ℕ
  | 0, _, c => ([], c)
  | n+1, i, c =>
    let (t, c1) := pyChoice2 gen c
    let (k, c2) := randint gen 1 maxKey c1
    let key := "key_" ++ toString k
    let emitted : List Operation :=
      if t = "UPDATE" then
        [⟨(i : ℤ), "READ", key⟩, ⟨(i : ℤ), "WRITE", key⟩]
      else
        [⟨(i : ℤ), t, key⟩]
    let (rest, c3) := randOpsAux gen maxKey n (i+1) c2
    (emitted ++ rest, c3)

/-- `generate_random_operations`: draw `num_ops` in `[1, max_ops]`, then run
the mixed READ/WRITE loop for ids `1..num_ops`. -/
def generate_random_operations (gen : ℕ → ℕ) (maxOps maxKey : ℕ) (c : ℕ) :
    List Operation × ℕ :=
  let (numOps, c1) := randint gen 1 maxOps c
  randOpsAux gen maxKey numOps 1 c1

/-- Loop body of `generate_transactions`: per transaction draw one decision
in `[1, 100]`; if it is `≤ read_only_percent` use the read-only path, else
the mixed path; every transaction carries isolation level SERIALIZABLE and
name `Txn_<index>`. -/
def genTxnsAux (gen : ℕ → ℕ) (maxOps maxKey readOnly : ℕ) :
    ℕ → ℕ → ℕ → List Transaction × ℕ
  | 0, _, c => ([], c)
  | n+1, i, c =>
    let (d, c1) := randint gen 1 100 c
    let (ops, c2) :=
      if d ≤ readOnly then generate_read_only_operations gen maxOps maxKey c1
      else generate_random_operations gen maxOps maxKey c1
    let (rest, c3) := genTxnsAux gen maxOps maxKey readOnly n (i+1) c2
    (⟨"Txn_" ++ toString i, "SERIALIZABLE", ops⟩ :: rest, c3)

/-- `generate_transactions` of `generate_random_workload.py`: transactions
`Txn_1 .. Txn_<total_txns>`. -/
def generate_transactions (gen : ℕ → ℕ) (totalTxns maxOps maxKey readOnly : ℕ)
    (c : ℕ) : List Transaction × ℕ :=
  genTxnsAux gen maxOps maxKey readOnly totalTxns 1 c

/-- Comparison definition for the spec sentence "every transaction is
generated via the mixed-operation path": the same transaction loop, but with
the per-transaction branch replaced by an unconditional call to
`generate_random_operations` (the decision draw is still consumed). -/
def genTxnsAllMixedAux (gen : ℕ → ℕ) (maxOps maxKey : ℕ) :
    ℕ → ℕ → ℕ → List Transaction × ℕ
  | 0, _, c => ([], c)
  | n+1, i, c =>
    let (_, c1) := randint gen 1 100 c
    let (ops, c2) := generate_random_operations gen maxOps maxKey c1
    let (rest, c3) := genTxnsAllMixedAux gen maxOps maxKey n (i+1) c2
    (⟨"Txn_" ++ toString i, "SERIALIZABLE", ops⟩ :: rest, c3)

/-- An abstract operation of a benchmark template: keys `id`, `type`, `key`
(a table name) and the optional `params` reference, which the source reads
with `op.get('params')` and which may be a single name or a list of names. -/
structure TemplateOp where
  id : ℤ
  type : String
  key : String
  params : Option (String ⊕ List String)
deriving DecidableEq, Repr

/-- A benchmark template as read by `generate_from_benchmarks`: fields
`name`, `isolationLevel`, `percentage`, `operations`, `params` (declared
parameter names). -/
structure Template where
  name : String
  isolationLevel : String
  percentage : ℚ
  operations : List TemplateOp
  params : List String
deriving DecidableEq, Repr

/-- The `ValueError` raised by `instantiate_template` when a referenced
parameter name is not found in `param_values`; the Python message names the
missing parameter, which is the field kept here. -/
structure MissingParamError where
  param : String
deriving DecidableEq, Repr

/-- Lookup in the `param_values` dictionary (modelled as an association
list whose later Python assignments appear earlier in scan order). -/
def lookupParam (pv : List (String × ℕ)) (s : String) : Option ℕ :=
  (pv.find? (fun kv => kv.1 == s)).map (·.2)

/-- `param_values[param_name] = self.random.randint(1, self.max_key)` for
each declared name in order; a repeated name is overwritten, which the
append-at-end representation reproduces under `lookupParam`. -/
def buildParamValues (gen : ℕ → ℕ) (maxKey : ℕ) :
    List String → ℕ → List (String × ℕ) × ℕ
  | [], c => ([], c)
  | s :: rest, c =>
    let (v, c1) := randint gen 1 maxKey c
    let (pv, c2) := buildParamValues gen maxKey rest c1
    (pv ++ [(s, v)], c2)

/-- Resolve a list of referenced parameter names against `param_values`,
failing on the first name that is absent, as the membership checks in
`instantiate_template` do. -/
def resolveRefs (pv : List (String × ℕ)) : List String → Except MissingParamError (List ℕ)
  | [] => .ok []
  | s :: rest =>
    match lookupParam pv s with
    | none => .error ⟨s⟩
    | some v =>
      match resolveRefs pv rest with
      | .error e => .error e
      | .ok vs => .ok (v :: vs)

/-- The parameter names referenced by one abstract operation, in the order
the source inspects them. -/
def opRefs (op : TemplateOp) : List String :=
  match op.params with
  | none => []
  | some (.inl s) => [s]
  | some (.inr l) => l

/-- Python `"_".join(strs)`. -/
def joinUnderscore : List String → String
  | [] => ""
  | [s] => s
  | s :: rest => s ++ "_" ++ joinUnderscore rest

/-- The key-determination block of `instantiate_template`: with no `params`
reference a fresh random instance number in `[1, max_key]` is drawn; with a
reference the declared values are resolved and joined (and the first absent
name raises). -/
def resolveOpKey (gen : ℕ → ℕ) (maxKey : ℕ) (pv : List (String × ℕ))
    (op : TemplateOp) (c : ℕ) : Except MissingParamError String × ℕ :=
  match op.params with
  | none =>
    let (k, c1) := randint gen 1 maxKey c
    (.ok (op.key ++ "_" ++ toString k), c1)
  | some _ =>
    match resolveRefs pv (opRefs op) with
    | .error e => (.error e, c)
    | .ok vs => (.ok (op.key ++ "_" ++ joinUnderscore (vs.map toString)), c)

/-- The emission block of `instantiate_template`: an UPDATE becomes a READ
and a WRITE with the same id and key, in that order; any other type is
emitted once, unchanged. -/
def emitOp (op : TemplateOp) (key : String) : List Operation :=
  if op.type = "UPDATE" then
    [⟨op.id, "READ", key⟩, ⟨op.id, "WRITE", key⟩]
  else
    [⟨op.id, op.type, key⟩]

/-- `instantiate_template` of `generate_bench_workload.py`: per abstract
operation resolve the concrete key, then emit the concrete operations.  A
missing parameter raises, which is modelled by the error branch. -/
def instantiate_template (gen : ℕ → ℕ) (maxKey : ℕ) (pv : List (String × ℕ)) :
    List TemplateOp → ℕ → Except MissingParamError (List Operation) × ℕ
  | [], c => (.ok [], c)
  | op :: rest, c =>
    match resolveOpKey gen maxKey pv op c with
    | (.error e, c1) => (.error e, c1)
    | (.ok key, c1) =>
      match instantiate_template gen maxKey pv rest c1 with
      | (.error e, c2) => (.error e, c2)
      | (.ok l, c2) => (.ok (emitOp op key ++ l), c2)

/-- `count = max(1, round(self.total_txns * percentage))`. -/
def templateCount (totalTxns : ℕ) (t : Template) : ℕ :=
  (max 1 (pyRound ((totalTxns : ℚ) * t.percentage))).toNat

/-- The `for i in range(count)` loop of `generate_from_benchmarks`: per
instance build fresh parameter values, instantiate the template's
operations, and name the transaction `<template name>_<i + 1>`.  The second
argument is the 1-based instance number. -/
def instLoop (gen : ℕ → ℕ) (maxKey : ℕ) (t : Template) :
    ℕ → ℕ → ℕ → Except MissingParamError (List Transaction) × ℕ
  | 0, _, c => (.ok [], c)
  | n+1, i, c =>
    let (pv, c1) := buildParamValues gen maxKey t.params c
    match instantiate_template gen maxKey pv t.operations c1 with
    | (.error e, c2) => (.error e, c2)
    | (.ok ops, c2) =>
      match instLoop gen maxKey t n (i+1) c2 with
      | (.error e, c3) => (.error e, c3)
      | (.ok rest, c3) =>
        (.ok (⟨t.name ++ "_" ++ toString i, t.isolationLevel, ops⟩ :: rest), c3)

/-- All instances of one template within one case. -/
def instantiate_instances (gen : ℕ → ℕ) (totalTxns maxKey : ℕ) (t : Template)
    (c : ℕ) : Except MissingParamError (List Transaction) × ℕ :=
  instLoop gen maxKey t (templateCount totalTxns t) 1 c

/-- The `for template in templates` loop of one case: instantiate each
template in order, appending the instances. -/
def instantiate_case (gen : ℕ → ℕ) (totalTxns maxKey : ℕ) :
    List Template → ℕ → Except MissingParamError (List Transaction) × ℕ
  | [], c => (.ok [], c)
  | t :: rest, c =>
    match instantiate_instances gen totalTxns maxKey t c with
    | (.error e, c1) => (.error e, c1)
    | (.ok txs, c1) =>
      match instantiate_case gen totalTxns maxKey rest c1 with
      | (.error e, c2) => (.error e, c2)
      | (.ok more, c2) => (.ok (txs ++ more), c2)

/-- Bounds-checked array swap used by the shuffle model. -/
def aswap {α : Type} (a : Array α) (i j : ℕ) : Array α :=
  if h1 : i < a.size then
    if h2 : j < a.size then a.swap ⟨i, h1⟩ ⟨j, h2⟩ else a
  else a

/-- `random.shuffle`: `for i in reversed(range(1, len(x)))`, draw an index
below `i + 1` and swap positions `i` and `j`.  The second argument is the
current loop variable `i`. -/
def shuffleAux {α : Type} (gen : ℕ → ℕ) : Array α → ℕ → ℕ → Array α × ℕ
  | a, 0, c => (a, c)
  | a, i+1, c =>
    let j := gen c % (i + 2)
    shuffleAux gen (aswap a (i+1) j) i (c+1)

/-- `self.random.shuffle(transactions)` on a list. -/
def pyShuffle {α : Type} (gen : ℕ → ℕ) (l : List α) (c : ℕ) : List α × ℕ :=
  let (a, c1) := shuffleAux gen l.toArray (l.length - 1) c
  (a.toList, c1)

/-- One benchmark file: its stem (`benchmark_file.stem`) and the templates
read from its JSON body. -/
structure BenchEntry where
  name : String
  templates : List Template
deriving DecidableEq, Repr

/-- One generation case for one benchmark: seed the stream with the case
number (`self.random.seed(case_num)` resets the draw counter to 0 on the
stream `gen2 case_num`), instantiate every template, then shuffle. -/
def caseWorkload (gen2 : ℕ → ℕ → ℕ) (totalTxns maxKey : ℕ)
    (templates : List Template) (caseNum : ℕ) : Except MissingParamError Workload :=
  let gen := gen2 caseNum
  match instantiate_case gen totalTxns maxKey templates 0 with
  | (.error e, _) => .error e
  | (.ok txns, c) => .ok ⟨(pyShuffle gen txns c).1⟩

/-- One written workload file, identified by the benchmark stem and case
number that the source bakes into the output filename. -/
structure FileOut where
  bench : String
  caseNum : ℕ
  workload : Workload
deriving DecidableEq, Repr

/-- The output filename `f"{benchmark_name}_{total_txns}t_{max_key}k_{case_num}.json"`. -/
def outFileName (totalTxns maxKey : ℕ) (f : FileOut) : String :=
  f.bench ++ "_" ++ toString totalTxns ++ "t_" ++ toString maxKey ++ "k_" ++
    toString f.caseNum ++ ".json"

/-- The `for case_num in range(1, self.cases + 1)` loop for one benchmark:
each successful case writes one file before the next begins; an exception
aborts with the files written so far kept on disk. -/
def casesLoop (gen2 : ℕ → ℕ → ℕ) (totalTxns maxKey : ℕ) (b : BenchEntry) :
    ℕ → ℕ → Option MissingParamError × List FileOut
  | 0, _ => (none, [])
  | n+1, i =>
    match caseWorkload gen2 totalTxns maxKey b.templates i with
    | .error e => (some e, [])
    | .ok w =>
      let (err, rest) := casesLoop gen2 totalTxns maxKey b n (i+1)
      (err, ⟨b.name, i, w⟩ :: rest)

/-- Ordering of benchmark entries by file stem, modelling
`sorted(benchmark_dir.glob('*.json'))`. -/
def nameLe (a b : BenchEntry) : Prop := a.name ≤ b.name

instance : DecidableRel nameLe := fun a b => inferInstanceAs (Decidable (a.name ≤ b.name))

instance : IsTotal BenchEntry nameLe := ⟨fun a b => le_total a.name b.name⟩

instance : IsTrans BenchEntry nameLe := ⟨fun _ _ _ h1 h2 => le_trans h1 h2⟩

/-- `sorted(benchmark_dir.glob('*.json'))`: the directory listing in lexical
order of stems (filenames in one directory are distinct). -/
def sortEntries (l : List BenchEntry) : List BenchEntry := l.insertionSort nameLe

/-- The `for benchmark_file in benchmark_files` loop: a benchmark with no
templates is skipped with a warning; an exception while processing one
benchmark makes the whole run return failure at once, keeping the files
already written. -/
def benchLoop (gen2 : ℕ → ℕ → ℕ) (totalTxns maxKey cases : ℕ) :
    List BenchEntry → Option MissingParamError × List FileOut
  | [] => (none, [])
  | b :: rest =>
    if b.templates = [] then benchLoop gen2 totalTxns maxKey cases rest
    else
      match casesLoop gen2 totalTxns maxKey b cases 1 with
      | (some e, files) => (some e, files)
      | (none, files) =>
        let (err, more) := benchLoop gen2 totalTxns maxKey cases rest
        (err, files ++ more)

/-- `generate_from_benchmarks` of `generate_bench_workload.py`, from the
point where the benchmark files have been read: process the entries in
sorted order; the first component is the missing-parameter failure (if any)
and the second the workload files written. -/
def generate_from_benchmarks (gen2 : ℕ → ℕ → ℕ) (totalTxns maxKey cases : ℕ)
    (entries : List BenchEntry) : Option MissingParamError × List FileOut :=
  benchLoop gen2 totalTxns maxKey cases (sortEntries entries)

/-- An abstract operation references a parameter name its template does not
declare (so every instantiation of the template raises). -/
def opFaulty (t : Template) (op : TemplateOp) : Prop :=
  ∃ s ∈ opRefs op, s ∉ t.params

instance (t : Template) (op : TemplateOp) : Decidable (opFaulty t op) :=
  inferInstanceAs (Decidable (∃ s ∈ opRefs op, s ∉ t.params))

/-- Some operation of the template references an undeclared parameter. -/
def templateFaulty (t : Template) : Prop :=
  ∃ op ∈ t.operations, opFaulty t op

instance (t : Template) : Decidable (templateFaulty t) :=
  inferInstanceAs (Decidable (∃ op ∈ t.operations, opFaulty t op))

/-- Some template of the benchmark is faulty. -/
def benchFaulty (b : BenchEntry) : Prop :=
  ∃ t ∈ b.templates, templateFaulty t

instance (b : BenchEntry) : Decidable (benchFaulty b) :=
  inferInstanceAs (Decidable (∃ t ∈ b.templates, templateFaulty t))

/-- The four workload parameters encoded by the random-workload filename
grammar `workload_<txns>t_<maxOps>o_<maxKey>k_<readOnly>r_<case>.json`. -/
inductive Param
  | txns
  | max_ops
  | max_key
  | read_only
deriving DecidableEq, Repr

/-- One parsed entry of `all_data` in `generate_analysis_csv`: a `success`
CSV row whose filename matched the grammar. -/
structure PerfData where
  txns : ℕ
  max_ops : ℕ
  max_key : ℕ
  read_only : ℕ
  case_num : ℕ
  execution_time : ℚ
deriving DecidableEq, Repr

/-- Field access `item[param]`. -/
def getParam (r : PerfData) : Param → ℕ
  | .txns => r.txns
  | .max_ops => r.max_ops
  | .max_key => r.max_key
  | .read_only => r.read_only

/-- `{'txns', 'max_ops', 'max_key', 'read_only'} - {varying_param}` as a
list (the source iterates a set; no result below depends on the order). -/
def otherParams : Param → List Param
  | .txns => [.max_ops, .max_key, .read_only]
  | .max_ops => [.txns, .max_key, .read_only]
  | .max_key => [.txns, .max_ops, .read_only]
  | .read_only => [.txns, .max_ops, .max_key]

/-- The `varying_params` table mapping each parameter to its plot name. -/
def plotName : Param → String
  | .txns => "txn_count_vs_time"
  | .max_ops => "op_per_txn_vs_time"
  | .max_key => "max_key_vs_time"
  | .read_only => "read_only_vs_time"

/-- Fold underlying `Counter(...).most_common(1)[0][0]`: scan the values in
order keeping the current best, replacing it only on a strictly larger
count; this returns the first value (in first-occurrence order) attaining
the maximal count, exactly as `Counter.most_common` does (its sort by count
is stable over insertion order). -/
def mostCommonAux (full : List ℕ) : List ℕ → ℕ → ℕ
  | [], best => best
  | a :: t, best =>
    mostCommonAux full t (if full.count best < full.count a then a else best)

/-- `Counter(values).most_common(1)[0][0]` (only used on non-empty input). -/
def mostCommon (l : List ℕ) : ℕ :=
  match l with
  | [] => 0
  | a :: t => mostCommonAux l t a

/-- `base_config[param]`: the most common value of parameter `q` across all
parsed records, computed for each `q` other than the varying parameter. -/
def base_config (data : List PerfData) (q : Param) : ℕ :=
  mostCommon (data.map (fun r => getParam r q))

/-- `filtered_data`: records whose non-varying parameters all equal the
baseline configuration. -/
def filtered_data (data : List PerfData) (p : Param) : List PerfData :=
  data.filter (fun r => (otherParams p).all (fun q => getParam r q == base_config data q))

/-- `grouped[param_value]`: the execution times of the filtered records
whose varying parameter has value `v`, in filtered order. -/
def groupTimes (fd : List PerfData) (p : Param) (v : ℕ) : List ℚ :=
  (fd.filter (fun r => getParam r p == v)).map (fun r => r.execution_time)

/-- `sorted(grouped.keys())`: the distinct values of the varying parameter
among the filtered records, in increasing order. -/
def varyValues (fd : List PerfData) (p : Param) : List ℕ :=
  ((fd.map (fun r => getParam r p)).dedup).insertionSort (· ≤ ·)

/-- One emitted analysis row.  `std_sq` is the square of the emitted
standard deviation: the source emits `np.std(times)`, the square root of
the population variance, and the exact-rational model carries the variance
so that every field stays computable. -/
structure AnalysisRow where
  plot : String
  vary_variable : Param
  vary_value : ℕ
  txn_count : Option ℕ
  op_per_txn : Option ℕ
  max_key : Option ℕ
  read_only_percent : Option ℕ
  mean : ℚ
  std_sq : ℚ
  sample_count : ℕ
deriving DecidableEq, Repr

/-- A baseline column of the CSV row: the baseline value when `q` is one of
the non-varying parameters, empty otherwise. -/
def baseField (data : List PerfData) (p q : Param) : Option ℕ :=
  if q ∈ otherParams p then some (base_config data q) else none

/-- `np.mean(times)`. -/
def meanQ (l : List ℚ) : ℚ := l.sum / (l.length : ℚ)

/-- The square of `np.std(times)`: the population variance, mean of squared
deviations from the mean (`ddof = 0`). -/
def varQ (l : List ℚ) : ℚ :=
  ((l.map (fun x => (x - meanQ l) ^ 2)).sum) / (l.length : ℚ)

/-- The analysis rows of one varying-parameter pass: one row per distinct
value of the varying parameter among the filtered records, in increasing
value order. -/
def rowsFor (data : List PerfData) (p : Param) : List AnalysisRow :=
  (varyValues (filtered_data data p) p).map (fun v =>
    { plot := plotName p
      vary_variable := p
      vary_value := v
      txn_count := baseField data p .txns
      op_per_txn := baseField data p .max_ops
      max_key := baseField data p .max_key
      read_only_percent := baseField data p .read_only
      mean := meanQ (groupTimes (filtered_data data p) p v)
      std_sq := varQ (groupTimes (filtered_data data p) p v)
      sample_count := (groupTimes (filtered_data data p) p v).length })

/-- `generate_analysis_csv` body: the four passes in the order of the
`varying_params` table. -/
def generate_analysis_rows (data : List PerfData) : List AnalysisRow :=
  (([Param.txns, Param.max_ops, Param.max_key, Param.read_only]).map
    (rowsFor data)).flatten

/-- Result of one external engine invocation: it either terminated within
the timeout with a completion code and error-output text, or it timed
out (`subprocess.TimeoutExpired`). -/
inductive EngineOutcome
  | completed (returncode : ℤ) (stderr : String)
  | timedOut
deriving DecidableEq, Repr

/-- One submitted workload file together with what its own invocation of
the engine did and its measured wall-clock elapsed time. -/
structure Invocation where
  filename : String
  outcome : EngineOutcome
  elapsed : ℚ
deriving DecidableEq, Repr

/-- The text of the `AttributeError` raised by calling `.decode` on a
Python 3 `str` value, as rendered by `str(e)`. -/
def pyAttrErrMsg : String := "AttributeError: str object has no attribute decode"

/-- Models `result.stderr.decode('utf-8', errors='ignore')` in
`allocate_file`: `subprocess.run` was called with `encoding='utf-8'`, so
`result.stderr` is already a `str`, and Python 3 `str` has no `decode`
method — the call raises `AttributeError` unconditionally instead of
returning the text. -/
def pyStrDecode : String → Except String String :=
  fun _ => .error pyAttrErrMsg

/-- `allocate_file` of `allocate_random_workload.py`: the returned tuple
`(filename, success, error_message, execution_time_seconds)`.  A zero
completion code is a success; a non-zero code takes the
`result.stderr.decode(...)` path, whose `AttributeError` is caught by the
outer `except Exception` and recorded as `str(e)`; a timeout is recorded
with the fixed message. -/
def allocate_file (inv : Invocation) : String × Bool × Option String × ℚ :=
  match inv.outcome with
  | .completed rc stderr =>
    if rc = 0 then (inv.filename, true, none, inv.elapsed)
    else
      match pyStrDecode stderr with
      | .ok m => (inv.filename, false, some (m.take 200), inv.elapsed)
      | .error e => (inv.filename, false, some e, inv.elapsed)
  | .timedOut => (inv.filename, false, some "Timeout (>300s)", inv.elapsed)

/-- One row of the performance CSV. -/
structure PerfRecord where
  filename : String
  status : String
  execution_time_seconds : ℚ
  error_message : String
deriving DecidableEq, Repr

/-- `f'{execution_time:.2f}'`: the elapsed time rounded to two decimal
places (Python formats ties to even). -/
def fmt2 (q : ℚ) : ℚ := (pyRound (q * 100) : ℚ) / 100

/-- The `performance_data.append({...})` body of the completion loop in
`main`: one CSV row per completed future. -/
def mkRecord (inv : Invocation) : PerfRecord :=
  match allocate_file inv with
  | (fn, succ, err, t) =>
    ⟨fn, if succ then "success" else "failed", fmt2 t, err.getD ""⟩

/-- The aggregate performance log: one record per future, in the order
`as_completed` yields them. -/
def performance_data (completed : List Invocation) : List PerfRecord :=
  completed.map mkRecord

/-! ## Theorems -/

/-- `pyRound` is the identity on integers (helper for evaluating the model
at concrete inputs, since rational normalization does not reduce in the
kernel). -/
theorem pyRound_intCast (n : ℤ) : pyRound ((n : ℤ) : ℚ) = n := by
  unfold pyRound
  have h : ((n : ℚ)).floor = n := by
    rw [show ((n : ℚ)).floor = ⌊(n : ℚ)⌋ from rfl, Int.floor_intCast]
  rw [h]
  norm_num

/-- Both operations emitted for one abstract operation share its id; an
UPDATE yields READ then WRITE, anything else is emitted once unchanged; in
no case is an UPDATE-typed operation emitted. -/
theorem emitOp_no_update (op : TemplateOp) (key : String) :
    ∀ o ∈ emitOp op key, o.type ≠ "UPDATE" := by
  intro o ho
  unfold emitOp at ho
  by_cases hu : op.type = "UPDATE"
  · rw [if_pos hu] at ho
    simp only [List.mem_cons, List.not_mem_nil, or_false] at ho
    rcases ho with h | h <;> (rw [h]; simp)
  · rw [if_neg hu] at ho
    simp only [List.mem_cons, List.not_mem_nil, or_false] at ho
    rw [ho]
    exact hu

/-- C1: whenever `instantiate_template` succeeds, its output is the
pointwise expansion of the input: each abstract operation gets one concrete
key, an abstract UPDATE becomes exactly two concrete operations with its id
and that key — a READ immediately followed by a WRITE — every other type
becomes exactly one concrete operation with id and type unchanged, and no
UPDATE-typed operation appears in the output. -/
theorem instantiate_template_expansion
    (gen : ℕ → ℕ) (maxKey : ℕ) (pv : List (String × ℕ)) (ops : List TemplateOp)
    (c c' : ℕ) (l : List Operation)
    (h : instantiate_template gen maxKey pv ops c = (.ok l, c')) :
    (∃ ks : List String, ks.length = ops.length ∧
        l = (ops.zip ks).flatMap (fun q => emitOp q.1 q.2)) ∧
      ∀ o ∈ l, o.type ≠ "UPDATE" := by
  have main : ∃ ks : List String, ks.length = ops.length ∧
      l = (ops.zip ks).flatMap (fun q => emitOp q.1 q.2) := by
    induction ops generalizing c c' l with
    | nil =>
      simp only [instantiate_template, Prod.mk.injEq, Except.ok.injEq] at h
      exact ⟨[], rfl, by simp [h.1.symm]⟩
    | cons op rest ih =>
      rw [instantiate_template] at h
      rcases hk : resolveOpKey gen maxKey pv op c with ⟨res, c1⟩
      rw [hk] at h
      cases res with
      | error e => simp at h
      | ok key =>
        rcases hr : instantiate_template gen maxKey pv rest c1 with ⟨res2, c2⟩
        dsimp only at h
        rw [hr] at h
        cases res2 with
        | error e => simp at h
        | ok l2 =>
          simp only [Prod.mk.injEq, Except.ok.injEq] at h
          obtain ⟨ks, hlen, heq⟩ := ih c1 c2 l2 hr
          refine ⟨key :: ks, by simp [hlen], ?_⟩
          rw [← h.1, heq]
          simp [List.zip_cons_cons]
  refine ⟨main, ?_⟩
  obtain ⟨ks, _, heq⟩ := main
  intro o ho
  rw [heq] at ho
  simp only [List.mem_flatMap] at ho
  obtain ⟨q, _, hq⟩ := ho
  exact emitOp_no_update q.1 q.2 o hq

/-- Witness for C1 at a concrete template: an UPDATE on `Account` bound to
parameter `N1 = 5` and a parameterless READ on `Balance`. -/
theorem instantiate_template_expansion_witness :
    instantiate_template (fun _ => 0) 10 [("N1", 5)]
        [⟨1, "UPDATE", "Account", some (.inl "N1")⟩,
         ⟨2, "READ", "Balance", none⟩] 0 =
      (.ok [⟨1, "READ", "Account_5"⟩, ⟨1, "WRITE", "Account_5"⟩,
            ⟨2, "READ", "Balance_1"⟩], 1) ∧
    ((∃ ks : List String, ks.length =
        ([⟨1, "UPDATE", "Account", some (.inl "N1")⟩,
          ⟨2, "READ", "Balance", none⟩] : List TemplateOp).length ∧
        ([⟨1, "READ", "Account_5"⟩, ⟨1, "WRITE", "Account_5"⟩,
          ⟨2, "READ", "Balance_1"⟩] : List Operation) =
          (([⟨1, "UPDATE", "Account", some (.inl "N1")⟩,
             ⟨2, "READ", "Balance", none⟩] : List TemplateOp).zip ks).flatMap
            (fun q => emitOp q.1 q.2)) ∧
      ∀ o ∈ ([⟨1, "READ", "Account_5"⟩, ⟨1, "WRITE", "Account_5"⟩,
              ⟨2, "READ", "Balance_1"⟩] : List Operation), o.type ≠ "UPDATE") :=
  ⟨rfl, instantiate_template_expansion (fun _ => 0) 10 [("N1", 5)] _ 0 1 _ rfl⟩

/-- The type drawn by `random.choice(['READ', 'WRITE'])` is READ or WRITE,
so in particular never UPDATE. -/
theorem pyChoice2_cases (gen : ℕ → ℕ) (c : ℕ) :
    (pyChoice2 gen c).1 = "READ" ∨ (pyChoice2 gen c).1 = "WRITE" := by
  unfold pyChoice2
  by_cases h : gen c % 2 = 0 <;> simp [h]

/-- The read-only operation loop emits ids `i, i + 1, ...` in order, one
per iteration, and only READ operations. -/
theorem roOpsAux_spec (gen : ℕ → ℕ) (maxKey : ℕ) :
    ∀ n i c,
      (roOpsAux gen maxKey n i c).1.map (fun o => o.id) =
          (List.range n).map (fun j => ((i + j : ℕ) : ℤ)) ∧
        ∀ o ∈ (roOpsAux gen maxKey n i c).1, o.type = "READ" := by
  intro n
  induction n with
  | zero => intro i c; simp [roOpsAux]
  | succ n ih =>
    intro i c
    rcases ih (i + 1) (randint gen 1 maxKey c).2 with ⟨hids, hty⟩
    constructor
    · simp only [roOpsAux, List.map_cons, hids, List.range_succ_eq_map,
        List.map_map]
      have hfe : ((fun j : ℕ => ((i + j : ℕ) : ℤ)) ∘ Nat.succ) =
          fun j : ℕ => ((i + 1 + j : ℕ) : ℤ) := by
        funext j
        simp only [Function.comp_apply]
        congr 1
        omega
      rw [hfe]
      simp
    · intro o ho
      simp only [roOpsAux, List.mem_cons] at ho
      rcases ho with h | h
      · rw [h]
      · exact hty o h

/-- The mixed operation loop emits exactly one operation per iteration
(the UPDATE expansion branch is unreachable because the type draw only
yields READ or WRITE), with ids `i, i + 1, ...` in order and each type
READ or WRITE. -/
theorem randOpsAux_spec (gen : ℕ → ℕ) (maxKey : ℕ) :
    ∀ n i c,
      (randOpsAux gen maxKey n i c).1.map (fun o => o.id) =
          (List.range n).map (fun j => ((i + j : ℕ) : ℤ)) ∧
        ∀ o ∈ (randOpsAux gen maxKey n i c).1,
          o.type = "READ" ∨ o.type = "WRITE" := by
  intro n
  induction n with
  | zero => intro i c; simp [randOpsAux]
  | succ n ih =>
    intro i c
    have hch := pyChoice2_cases gen c
    have hne : (pyChoice2 gen c).1 ≠ "UPDATE" := by
      rcases hch with h | h <;> (rw [h]; simp)
    rcases ih (i + 1) (randint gen 1 maxKey (pyChoice2 gen c).2).2 with ⟨hids, hty⟩
    constructor
    · simp only [randOpsAux, if_neg hne, List.cons_append, List.nil_append,
        List.map_cons, hids, List.range_succ_eq_map, List.map_map]
      have hfe : ((fun j : ℕ => ((i + j : ℕ) : ℤ)) ∘ Nat.succ) =
          fun j : ℕ => ((i + 1 + j : ℕ) : ℤ) := by
        funext j
        simp only [Function.comp_apply]
        congr 1
        omega
      rw [hfe]
      simp
    · intro o ho
      simp only [randOpsAux, if_neg hne, List.cons_append, List.nil_append,
        List.mem_cons] at ho
      rcases ho with h | h
      · rw [h]
        exact hch
      · exact hty o h

/-- C10: in every transaction of the Random Workload Generator — read-only
path or mixed path, any read-only percentage — the operation ids are exactly
the consecutive integers `1..n` for `n` operations, each borne by exactly
one operation, and every operation is typed READ or WRITE (never UPDATE, so
no shared-id READ/WRITE pair is ever produced). -/
theorem generate_transactions_ids_consecutive
    (gen : ℕ → ℕ) (totalTxns maxOps maxKey readOnly c : ℕ) :
    ∀ txn ∈ (generate_transactions gen totalTxns maxOps maxKey readOnly c).1,
      txn.operations.map (fun o => o.id) =
          (List.range txn.operations.length).map (fun j => ((j + 1 : ℕ) : ℤ)) ∧
        ∀ op ∈ txn.operations, op.type = "READ" ∨ op.type = "WRITE" := by
  have ops_ok : ∀ (ops : List Operation),
      (ops.map (fun o => o.id) = (List.range ops.length).map (fun j => ((1 + j : ℕ) : ℤ))) →
      ops.map (fun o => o.id) = (List.range ops.length).map (fun j => ((j + 1 : ℕ) : ℤ)) := by
    intro ops h
    rw [h]
    apply List.map_congr_left
    intro j _
    congr 1
    omega
  have len_eq : ∀ (ops : List Operation) (n : ℕ),
      ops.map (fun o => o.id) = (List.range n).map (fun j => ((1 + j : ℕ) : ℤ)) →
      ops.length = n := by
    intro ops n h
    have := congrArg List.length h
    simpa using this
  have body : ∀ n i c, ∀ txn ∈ (genTxnsAux gen maxOps maxKey readOnly n i c).1,
      txn.operations.map (fun o => o.id) =
          (List.range txn.operations.length).map (fun j => ((j + 1 : ℕ) : ℤ)) ∧
        ∀ op ∈ txn.operations, op.type = "READ" ∨ op.type = "WRITE" := by
    intro n
    induction n with
    | zero => intro i c txn h; simp [genTxnsAux] at h
    | succ n ih =>
      intro i c txn h
      simp only [genTxnsAux, List.mem_cons] at h
      rcases h with h | h
      · set c1 := (randint gen 1 100 c).2 with hc1
        by_cases hd : (randint gen 1 100 c).1 ≤ readOnly
        · rcases roOpsAux_spec gen maxKey
              (randint gen 1 maxOps c1).1 1 (randint gen 1 maxOps c1).2 with ⟨hids, hty⟩
          rw [h]
          simp only [if_pos hd]
          have hlen := len_eq _ _ hids
          refine ⟨?_, fun op hop => Or.inl (hty op hop)⟩
          apply ops_ok
          simp only [generate_read_only_operations]
          rw [hlen]
          exact hids
        · rcases randOpsAux_spec gen maxKey
              (randint gen 1 maxOps c1).1 1 (randint gen 1 maxOps c1).2 with ⟨hids, hty⟩
          rw [h]
          simp only [if_neg hd]
          have hlen := len_eq _ _ hids
          refine ⟨?_, hty⟩
          apply ops_ok
          simp only [generate_random_operations]
          rw [hlen]
          exact hids
      · exact ih _ _ txn h
  exact body totalTxns 1 c

/-- Witness for C10: the single transaction generated with one operation
has ids exactly `1..1` and a READ/WRITE type. -/
theorem generate_transactions_ids_consecutive_witness :
    ((⟨"Txn_1", "SERIALIZABLE", [⟨1, "READ", "key_1"⟩]⟩ : Transaction) ∈
        (generate_transactions (fun _ => 0) 1 1 1 0 0).1) ∧
      ((⟨"Txn_1", "SERIALIZABLE", [⟨1, "READ", "key_1"⟩]⟩ :
            Transaction).operations.map (fun o => o.id) =
          (List.range (⟨"Txn_1", "SERIALIZABLE", [⟨1, "READ", "key_1"⟩]⟩ :
            Transaction).operations.length).map (fun j => ((j + 1 : ℕ) : ℤ)) ∧
        ∀ op ∈ (⟨"Txn_1", "SERIALIZABLE", [⟨1, "READ", "key_1"⟩]⟩ :
            Transaction).operations, op.type = "READ" ∨ op.type = "WRITE") :=
  ⟨by decide,
    generate_transactions_ids_consecutive (fun _ => 0) 1 1 1 0 0 _ (by decide)⟩

/-- C9: with `read_only_percent = 100` every generated operation is a READ
(the decision draw in `[1, 100]` is always at most 100), and with
`read_only_percent = 0` the generator is the all-mixed-path loop (the
decision draw, being at least 1, never falls in the read-only branch). -/
theorem generate_transactions_read_only_extremes
    (gen : ℕ → ℕ) (totalTxns maxOps maxKey c : ℕ) :
    (∀ txn ∈ (generate_transactions gen totalTxns maxOps maxKey 100 c).1,
        ∀ op ∈ txn.operations, op.type = "READ") ∧
      generate_transactions gen totalTxns maxOps maxKey 0 c =
        genTxnsAllMixedAux gen maxOps maxKey totalTxns 1 c := by
  constructor
  · have body : ∀ n i c, ∀ txn ∈ (genTxnsAux gen maxOps maxKey 100 n i c).1,
        ∀ op ∈ txn.operations, op.type = "READ" := by
      intro n
      induction n with
      | zero => intro i c txn h; simp [genTxnsAux] at h
      | succ n ih =>
        intro i c txn h
        have hd : (randint gen 1 100 c).1 ≤ 100 := by
          unfold randint
          have : gen c % 100 < 100 := Nat.mod_lt _ (by norm_num)
          omega
        simp only [genTxnsAux, if_pos hd, List.mem_cons] at h
        rcases h with h | h
        · rw [h]
          intro op hop
          exact (roOpsAux_spec gen maxKey _ _ _).2 op hop
        · exact ih _ _ txn h
    exact body totalTxns 1 c
  · have body : ∀ n i c, genTxnsAux gen maxOps maxKey 0 n i c =
        genTxnsAllMixedAux gen maxOps maxKey n i c := by
      intro n
      induction n with
      | zero => intro i c; rfl
      | succ n ih =>
        intro i c
        have hd : ¬ (randint gen 1 100 c).1 ≤ 0 := by
          unfold randint
          omega
        simp only [genTxnsAux, genTxnsAllMixedAux, if_neg hd, ih]
    exact body totalTxns 1 c

/-- On success the instance loop produces exactly one transaction per
iteration. -/
theorem instLoop_length (gen : ℕ → ℕ) (maxKey : ℕ) (t : Template) :
    ∀ n i c c' l, instLoop gen maxKey t n i c = (.ok l, c') → l.length = n := by
  intro n
  induction n with
  | zero =>
    intro i c c' l h
    simp only [instLoop, Prod.mk.injEq, Except.ok.injEq] at h
    rw [← h.1]
    rfl
  | succ n ih =>
    intro i c c' l h
    rw [instLoop] at h
    rcases hpv : buildParamValues gen maxKey t.params c with ⟨pv, c1⟩
    rw [hpv] at h
    dsimp only at h
    rcases hit : instantiate_template gen maxKey pv t.operations c1 with ⟨res, c2⟩
    rw [hit] at h
    cases res with
    | error e => simp at h
    | ok ops =>
      rcases hr : instLoop gen maxKey t n (i+1) c2 with ⟨res2, c3⟩
      dsimp only at h
      rw [hr] at h
      cases res2 with
      | error e => simp at h
      | ok rest =>
        simp only [Prod.mk.injEq, Except.ok.injEq] at h
        rw [← h.1]
        simp [ih _ _ _ _ hr]

/-- C5: whenever the instantiation of one template succeeds, the number of
instances created equals `max(1, round(N * percentage))`, and in particular
is at least 1 even when the rounded product is 0. -/
theorem instantiate_instances_count (gen : ℕ → ℕ) (totalTxns maxKey : ℕ)
    (t : Template) (c c' : ℕ) (l : List Transaction)
    (h : instantiate_instances gen totalTxns maxKey t c = (.ok l, c')) :
    l.length = (max 1 (pyRound ((totalTxns : ℚ) * t.percentage))).toNat ∧
      1 ≤ l.length := by
  have hlen := instLoop_length gen maxKey t (templateCount totalTxns t) 1 c c' l h
  constructor
  · rw [hlen]
    rfl
  · rw [hlen]
    unfold templateCount
    have h1 : (1 : ℤ) ≤ max 1 (pyRound ((totalTxns : ℚ) * t.percentage)) :=
      le_max_left _ _
    omega

/-- Witness for C5: a template with percentage `1/2` and budget `N = 4`
yields exactly `max(1, round(2)) = 2` instances. -/
theorem instantiate_instances_count_witness :
    instantiate_instances (fun _ => 0) 4 7 ⟨"T", "SERIALIZABLE", 1/2, [], []⟩ 0 =
      (.ok [⟨"T_1", "SERIALIZABLE", []⟩, ⟨"T_2", "SERIALIZABLE", []⟩], 0) ∧
    (([⟨"T_1", "SERIALIZABLE", []⟩, ⟨"T_2", "SERIALIZABLE", []⟩] :
        List Transaction).length =
        (max 1 (pyRound ((4 : ℚ) * (⟨"T", "SERIALIZABLE", 1/2, [], []⟩ :
          Template).percentage))).toNat ∧
      1 ≤ ([⟨"T_1", "SERIALIZABLE", []⟩, ⟨"T_2", "SERIALIZABLE", []⟩] :
        List Transaction).length) := by
  have hc : templateCount 4 ⟨"T", "SERIALIZABLE", 1/2, [], []⟩ = 2 := by
    unfold templateCount
    have h4 : ((4 : ℕ) : ℚ) * ((1 : ℚ)/2) = ((2 : ℤ) : ℚ) := by norm_num
    rw [h4, pyRound_intCast]
    rfl
  have heq : instantiate_instances (fun _ => 0) 4 7
      ⟨"T", "SERIALIZABLE", 1/2, [], []⟩ 0 =
      (.ok [⟨"T_1", "SERIALIZABLE", []⟩, ⟨"T_2", "SERIALIZABLE", []⟩], 0) := by
    unfold instantiate_instances
    rw [hc]
    rfl
  exact ⟨heq, instantiate_instances_count (fun _ => 0) 4 7 _ 0 0 _ heq⟩


/-- The best-so-far scan underlying `Counter.most_common(1)` returns an
element of the scanned prefix (or the seed) whose count is maximal among the
seed and the scanned values. -/
theorem mostCommonAux_spec (full : List ℕ) :
    ∀ xs best, (mostCommonAux full xs best = best ∨ mostCommonAux full xs best ∈ xs) ∧
      full.count best ≤ full.count (mostCommonAux full xs best) ∧
      ∀ x ∈ xs, full.count x ≤ full.count (mostCommonAux full xs best) := by
  intro xs
  induction xs with
  | nil => intro best; exact ⟨Or.inl rfl, le_refl _, by simp⟩
  | cons a t ih =>
    intro best
    simp only [mostCommonAux]
    rcases ih (if full.count best < full.count a then a else best) with ⟨hmem, hbest, hall⟩
    have hstep : full.count best ≤
        full.count (if full.count best < full.count a then a else best) := by
      by_cases hlt : full.count best < full.count a
      · rw [if_pos hlt]; exact le_of_lt hlt
      · rw [if_neg hlt]
    have hstepa : full.count a ≤
        full.count (if full.count best < full.count a then a else best) := by
      by_cases hlt : full.count best < full.count a
      · rw [if_pos hlt]
      · rw [if_neg hlt]; omega
    refine ⟨?_, le_trans hstep hbest, ?_⟩
    · rcases hmem with h | h
      · rw [h]
        by_cases hlt : full.count best < full.count a
        · rw [if_pos hlt]; exact Or.inr (List.mem_cons_self a t)
        · rw [if_neg hlt]; exact Or.inl rfl
      · exact Or.inr (List.mem_cons_of_mem a h)
    · intro x hx
      rcases List.mem_cons.1 hx with h | h
      · rw [h]; exact le_trans hstepa hbest
      · exact hall x h

/-- `Counter(values).most_common(1)[0][0]` on a non-empty list is a member
attaining the maximal multiplicity. -/
theorem mostCommon_spec (l : List ℕ) (hne : l ≠ []) :
    mostCommon l ∈ l ∧ ∀ x, l.count x ≤ l.count (mostCommon l) := by
  cases l with
  | nil => exact absurd rfl hne
  | cons a t =>
    rcases mostCommonAux_spec (a :: t) t a with ⟨hmem, hbest, hall⟩
    have hm : mostCommon (a :: t) = mostCommonAux (a :: t) t a := rfl
    constructor
    · rw [hm]
      rcases hmem with h | h
      · rw [h]; exact List.mem_cons_self a t
      · exact List.mem_cons_of_mem a h
    · intro x
      rw [hm]
      by_cases hx : x ∈ a :: t
      · rcases List.mem_cons.1 hx with h | h
        · rw [h]; exact hbest
        · exact hall x h
      · rw [List.count_eq_zero.2 hx]
        exact Nat.zero_le _

/-- C3: for every target parameter, the analyzer's baseline configuration
assigns to each non-target parameter a value occurring in the parsed
records with maximal multiplicity (the statistical mode), and the filtered
record set consists of exactly the parsed records whose non-target
parameters all equal the baseline; any record differing in some non-target
parameter is excluded. -/
theorem analysis_baseline_filter (data : List PerfData) (p : Param)
    (hne : data ≠ []) :
    (∀ q ∈ otherParams p,
        base_config data q ∈ data.map (fun r => getParam r q) ∧
          ∀ v, (data.map (fun r => getParam r q)).count v ≤
            (data.map (fun r => getParam r q)).count (base_config data q)) ∧
      ∀ r, r ∈ filtered_data data p ↔
        (r ∈ data ∧ ∀ q ∈ otherParams p, getParam r q = base_config data q) := by
  constructor
  · intro q _
    have hmap : data.map (fun r => getParam r q) ≠ [] := by
      cases data with
      | nil => exact absurd rfl hne
      | cons a t => simp
    exact ⟨(mostCommon_spec _ hmap).1, (mostCommon_spec _ hmap).2⟩
  · intro r
    unfold filtered_data
    rw [List.mem_filter]
    simp [List.all_eq_true]

/-- Witness for C3 on a one-record log analyzed for the `txns` pass. -/
theorem analysis_baseline_filter_witness :
    ([⟨1, 2, 3, 4, 1, 1⟩] : List PerfData) ≠ [] ∧
    ((∀ q ∈ otherParams .txns,
        base_config [⟨1, 2, 3, 4, 1, 1⟩] q ∈
            ([⟨1, 2, 3, 4, 1, 1⟩] : List PerfData).map (fun r => getParam r q) ∧
          ∀ v, (([⟨1, 2, 3, 4, 1, 1⟩] : List PerfData).map
                (fun r => getParam r q)).count v ≤
            (([⟨1, 2, 3, 4, 1, 1⟩] : List PerfData).map
                (fun r => getParam r q)).count (base_config [⟨1, 2, 3, 4, 1, 1⟩] q)) ∧
      ∀ r, r ∈ filtered_data [⟨1, 2, 3, 4, 1, 1⟩] .txns ↔
        (r ∈ ([⟨1, 2, 3, 4, 1, 1⟩] : List PerfData) ∧
          ∀ q ∈ otherParams .txns,
            getParam r q = base_config [⟨1, 2, 3, 4, 1, 1⟩] q)) :=
  ⟨by simp, analysis_baseline_filter _ .txns (by simp)⟩

/-- The sorted distinct varying values are duplicate-free. -/
theorem varyValues_nodup (fd : List PerfData) (p : Param) :
    (varyValues fd p).Nodup :=
  ((List.perm_insertionSort _ _).nodup_iff).2 (List.nodup_dedup _)

/-- Membership in the sorted distinct varying values is membership among
the filtered records' values. -/
theorem varyValues_mem (fd : List PerfData) (p : Param) (v : ℕ) :
    v ∈ varyValues fd p ↔ v ∈ fd.map (fun r => getParam r p) := by
  unfold varyValues
  rw [List.mem_insertionSort, List.mem_dedup]

/-- A value groups a non-empty time list exactly when some record carries
it. -/
theorem groupTimes_ne_nil_iff (fd : List PerfData) (p : Param) (v : ℕ) :
    groupTimes fd p v ≠ [] ↔ v ∈ fd.map (fun r => getParam r p) := by
  unfold groupTimes
  constructor
  · intro h
    rcases List.exists_mem_of_ne_nil _ h with ⟨t, ht⟩
    rcases List.mem_map.1 ht with ⟨r, hr, _⟩
    rcases List.mem_filter.1 hr with ⟨hrf, hrv⟩
    exact List.mem_map.2 ⟨r, hrf, beq_iff_eq.mp hrv⟩
  · intro h
    rcases List.mem_map.1 h with ⟨r, hr, hrv⟩
    have : r ∈ fd.filter (fun r => getParam r p == v) :=
      List.mem_filter.2 ⟨hr, by rw [hrv]; exact beq_self_eq_true v⟩
    exact List.ne_nil_of_mem (List.mem_map.2 ⟨r, this, rfl⟩)

/-- C4: for every non-empty group of baseline-consistent records sharing
one value of the varying parameter, the pass emits exactly one row for that
value; its `mean` is the arithmetic mean of the group's execution times,
its emitted standard deviation is their population standard deviation (the
square root of the mean squared deviation), and its `sample_count` is the
group size. -/
theorem analysis_rows_group_stats (data : List PerfData) (p : Param) (v : ℕ)
    (hv : groupTimes (filtered_data data p) p v ≠ []) :
    ((rowsFor data p).countP (fun row => row.vary_value == v)) = 1 ∧
      ∀ row ∈ rowsFor data p, row.vary_value = v →
        row.mean = (groupTimes (filtered_data data p) p v).sum /
            ((groupTimes (filtered_data data p) p v).length : ℚ) ∧
          row.sample_count = (groupTimes (filtered_data data p) p v).length ∧
          Real.sqrt ((row.std_sq : ℚ) : ℝ) = Real.sqrt
            ((((groupTimes (filtered_data data p) p v).map
                (fun x => (x - (groupTimes (filtered_data data p) p v).sum /
                  ((groupTimes (filtered_data data p) p v).length : ℚ)) ^ 2)).sum /
              ((groupTimes (filtered_data data p) p v).length : ℚ) : ℚ) : ℝ) := by
  have hmem : v ∈ varyValues (filtered_data data p) p :=
    (varyValues_mem _ _ _).2 ((groupTimes_ne_nil_iff _ _ _).1 hv)
  constructor
  · rw [rowsFor, List.countP_map]
    have hcnt : (varyValues (filtered_data data p) p).count v = 1 :=
      List.count_eq_one_of_mem (varyValues_nodup _ _) hmem
    exact hcnt
  · intro row hrow hval
    rw [rowsFor] at hrow
    rcases List.mem_map.1 hrow with ⟨v', _, heq⟩
    have hv' : v' = v := by rw [← hval, ← heq]
    subst hv'
    rw [← heq]
    exact ⟨rfl, rfl, rfl⟩

/-- Witness for C4 on a one-record log: the `txns = 1` group has one row
with mean 1, variance 0 and sample count 1. -/
theorem analysis_rows_group_stats_witness :
    groupTimes (filtered_data [⟨1, 2, 3, 4, 1, 1⟩] .txns) .txns 1 ≠ [] ∧
    (((rowsFor [⟨1, 2, 3, 4, 1, 1⟩] .txns).countP
        (fun row => row.vary_value == 1)) = 1 ∧
      ∀ row ∈ rowsFor [⟨1, 2, 3, 4, 1, 1⟩] .txns, row.vary_value = 1 →
        row.mean = (groupTimes (filtered_data [⟨1, 2, 3, 4, 1, 1⟩] .txns) .txns 1).sum /
            ((groupTimes (filtered_data [⟨1, 2, 3, 4, 1, 1⟩] .txns) .txns 1).length : ℚ) ∧
          row.sample_count =
            (groupTimes (filtered_data [⟨1, 2, 3, 4, 1, 1⟩] .txns) .txns 1).length ∧
          Real.sqrt ((row.std_sq : ℚ) : ℝ) = Real.sqrt
            ((((groupTimes (filtered_data [⟨1, 2, 3, 4, 1, 1⟩] .txns) .txns 1).map
                (fun x => (x - (groupTimes (filtered_data [⟨1, 2, 3, 4, 1, 1⟩] .txns) .txns 1).sum /
                  ((groupTimes (filtered_data [⟨1, 2, 3, 4, 1, 1⟩] .txns) .txns 1).length : ℚ)) ^ 2)).sum /
              ((groupTimes (filtered_data [⟨1, 2, 3, 4, 1, 1⟩] .txns) .txns 1).length : ℚ) : ℚ) : ℝ)) :=
  ⟨by decide, analysis_rows_group_stats _ .txns 1 (by decide)⟩

/-- C6: the completion loop turns every completed future into exactly one
performance record — for any completion order that is a permutation of the
submitted files, the log has exactly one record per submitted file,
regardless of each invocation's outcome, and each record carries the
(formatted) wall-clock elapsed time and filename of its own invocation
only. -/
theorem performance_records_complete (files completed : List Invocation)
    (hperm : completed.Perm files) :
    (performance_data completed).length = files.length ∧
      (performance_data completed).Perm (files.map mkRecord) ∧
      ∀ inv ∈ completed,
        (mkRecord inv).execution_time_seconds = fmt2 inv.elapsed ∧
          (mkRecord inv).filename = inv.filename := by
  refine ⟨?_, ?_, ?_⟩
  · unfold performance_data
    rw [List.length_map, hperm.length_eq]
  · exact hperm.map mkRecord
  · intro inv _
    cases houtcome : inv.outcome with
    | completed rc stderr =>
      by_cases hrc : rc = 0
      · simp [mkRecord, allocate_file, houtcome, hrc]
      · simp [mkRecord, allocate_file, houtcome, hrc, pyStrDecode]
    | timedOut => simp [mkRecord, allocate_file, houtcome]

/-- Witness for C6: two submitted files completing in swapped order. -/
theorem performance_records_complete_witness :
    (([⟨"b.json", .timedOut, 2⟩, ⟨"a.json", .completed 0 "", 1⟩] :
        List Invocation).Perm
      [⟨"a.json", .completed 0 "", 1⟩, ⟨"b.json", .timedOut, 2⟩]) ∧
    ((performance_data [⟨"b.json", .timedOut, 2⟩, ⟨"a.json", .completed 0 "", 1⟩]).length =
        ([⟨"a.json", .completed 0 "", 1⟩, ⟨"b.json", .timedOut, 2⟩] :
          List Invocation).length ∧
      (performance_data [⟨"b.json", .timedOut, 2⟩, ⟨"a.json", .completed 0 "", 1⟩]).Perm
        (([⟨"a.json", .completed 0 "", 1⟩, ⟨"b.json", .timedOut, 2⟩] :
          List Invocation).map mkRecord) ∧
      ∀ inv ∈ ([⟨"b.json", .timedOut, 2⟩, ⟨"a.json", .completed 0 "", 1⟩] :
          List Invocation),
        (mkRecord inv).execution_time_seconds = fmt2 inv.elapsed ∧
          (mkRecord inv).filename = inv.filename) :=
  ⟨List.Perm.swap _ _ _,
    performance_records_complete _ _ (List.Perm.swap _ _ _)⟩

set_option maxRecDepth 4000 in
/-- C7 (evaluating the harness at a failing invocation): an engine run that
terminates within the timeout with completion code 1 and non-empty error
output is recorded as `failed`, but its error message is the
`AttributeError` text from calling `.decode` on a `str`, not the first 200
characters of the engine's stderr as the specification requires. -/
theorem allocate_file_decode_bug :
    mkRecord ⟨"workload_100t_10o_300k_50r_1.json",
        .completed 1 "engine error detail", 1⟩ =
      ⟨"workload_100t_10o_300k_50r_1.json", "failed", fmt2 1, pyAttrErrMsg⟩ ∧
      pyAttrErrMsg ≠ ("engine error detail".take 200) := by
  exact ⟨rfl, by decide⟩

/-- Strict ordering of benchmark entries by stem. -/
def nameLt (a b : BenchEntry) : Prop := a.name < b.name

instance : IsAntisymm BenchEntry nameLt :=
  ⟨fun _ _ h1 h2 => absurd h2 (lt_asymm h1)⟩

/-- A duplicate-free image under a map means pairwise distinct images. -/
theorem pairwise_ne_of_nodup_map {α β : Type} {l : List α} {f : α → β}
    (h : (l.map f).Nodup) : l.Pairwise (fun a b => f a ≠ f b) := by
  induction l with
  | nil => exact List.Pairwise.nil
  | cons a t ih =>
    simp only [List.map_cons, List.nodup_cons, List.mem_map] at h
    refine List.Pairwise.cons ?_ (ih h.2)
    intro b hb heq
    exact h.1 ⟨b, hb, heq.symm⟩

/-- A list sorted by stem whose stems are pairwise distinct is sorted by
the strict stem order. -/
theorem pairwise_lt_of_le_ne {l : List BenchEntry}
    (hle : l.Pairwise nameLe) (hne : l.Pairwise (fun a b => a.name ≠ b.name)) :
    l.Pairwise nameLt := by
  induction l with
  | nil => exact List.Pairwise.nil
  | cons a t ih =>
    rcases List.pairwise_cons.1 hle with ⟨hle1, hle2⟩
    rcases List.pairwise_cons.1 hne with ⟨hne1, hne2⟩
    exact List.Pairwise.cons
      (fun b hb => lt_of_le_of_ne (hle1 b hb) (hne1 b hb)) (ih hle2 hne2)

/-- Two listings of the same set of benchmark files (distinct stems, as in
one directory) sort to the same list. -/
theorem sortEntries_eq_of_perm (l1 l2 : List BenchEntry) (hperm : l1.Perm l2)
    (hnd : (l1.map BenchEntry.name).Nodup) :
    sortEntries l1 = sortEntries l2 := by
  have hs1 : (sortEntries l1).Pairwise nameLe := List.sorted_insertionSort nameLe l1
  have hs2 : (sortEntries l2).Pairwise nameLe := List.sorted_insertionSort nameLe l2
  have hp1 : (sortEntries l1).Perm l1 := List.perm_insertionSort nameLe l1
  have hp2 : (sortEntries l2).Perm l2 := List.perm_insertionSort nameLe l2
  have hperm12 : (sortEntries l1).Perm (sortEntries l2) :=
    hp1.trans (hperm.trans hp2.symm)
  have hnd1 : ((sortEntries l1).map BenchEntry.name).Nodup :=
    ((hp1.map BenchEntry.name).nodup_iff).2 hnd
  have hnd2 : ((sortEntries l2).map BenchEntry.name).Nodup :=
    ((hperm12.map BenchEntry.name).nodup_iff).1 hnd1
  exact List.eq_of_perm_of_sorted hperm12
    (pairwise_lt_of_le_ne hs1 (pairwise_ne_of_nodup_map hnd1))
    (pairwise_lt_of_le_ne hs2 (pairwise_ne_of_nodup_map hnd2))

/-- C2: the generated workload files are a pure function of the seeded
draw-stream family (`gen2`, seeded solely by the case number), the numeric
parameters and the set of benchmark files: two listings of the same
benchmark files in any file-system iteration orders produce identical
output, and the benchmarks are processed in lexically sorted stem order. -/
theorem generate_from_benchmarks_deterministic (gen2 : ℕ → ℕ → ℕ)
    (totalTxns maxKey cases : ℕ) (l1 l2 : List BenchEntry)
    (hperm : l1.Perm l2) (hnd : (l1.map BenchEntry.name).Nodup) :
    generate_from_benchmarks gen2 totalTxns maxKey cases l1 =
        generate_from_benchmarks gen2 totalTxns maxKey cases l2 ∧
      (sortEntries l1).Pairwise nameLe := by
  constructor
  · unfold generate_from_benchmarks
    rw [sortEntries_eq_of_perm l1 l2 hperm hnd]
  · exact List.sorted_insertionSort nameLe l1

/-- Witness for C2: two listing orders of the same two benchmark files. -/
theorem generate_from_benchmarks_deterministic_witness :
    (([⟨"tpcc", []⟩, ⟨"smallbank", []⟩] : List BenchEntry).Perm
        [⟨"smallbank", []⟩, ⟨"tpcc", []⟩]) ∧
      (([⟨"tpcc", []⟩, ⟨"smallbank", []⟩] : List BenchEntry).map
          BenchEntry.name).Nodup ∧
      (generate_from_benchmarks (fun _ _ => 0) 10 5 2
            [⟨"tpcc", []⟩, ⟨"smallbank", []⟩] =
          generate_from_benchmarks (fun _ _ => 0) 10 5 2
            [⟨"smallbank", []⟩, ⟨"tpcc", []⟩] ∧
        (sortEntries [⟨"tpcc", []⟩, ⟨"smallbank", []⟩]).Pairwise nameLe) :=
  ⟨List.Perm.swap _ _ _, by decide,
    generate_from_benchmarks_deterministic (fun _ _ => 0) 10 5 2 _ _
      (List.Perm.swap _ _ _) (by decide)⟩

/-- `param_name in param_values` corresponds to a successful lookup. -/
theorem lookupParam_isSome_iff (pv : List (String × ℕ)) (s : String) :
    (lookupParam pv s).isSome ↔ s ∈ pv.map Prod.fst := by
  induction pv with
  | nil => simp [lookupParam]
  | cons kv rest ih =>
    unfold lookupParam at ih ⊢
    by_cases h : kv.1 = s
    · rw [List.find?_cons_of_pos _ (by simp [h])]
      simp [h]
    · rw [List.find?_cons_of_neg _ (by simp [h])]
      simp only [List.map_cons, List.mem_cons]
      rw [ih]
      constructor
      · exact Or.inr
      · intro hc
        rcases hc with hc | hc
        · exact absurd hc.symm h
        · exact hc

/-- The keys of the built `param_values` are exactly the declared names. -/
theorem buildParamValues_mem_keys (gen : ℕ → ℕ) (maxKey : ℕ) :
    ∀ names c s,
      s ∈ (buildParamValues gen maxKey names c).1.map Prod.fst ↔ s ∈ names := by
  intro names
  induction names with
  | nil => intro c s; simp [buildParamValues]
  | cons a t ih =>
    intro c s
    simp only [buildParamValues, List.map_append, List.mem_append, List.mem_cons]
    rw [ih]
    simp only [List.map_cons, List.map_nil, List.mem_cons, List.not_mem_nil,
      or_false]
    tauto

/-- A declared name always resolves against the values built for one
instance; an undeclared name never does. -/
theorem lookup_buildParamValues_isSome (gen : ℕ → ℕ) (maxKey : ℕ)
    (names : List String) (c : ℕ) (s : String) :
    (lookupParam (buildParamValues gen maxKey names c).1 s).isSome ↔
      s ∈ names := by
  rw [lookupParam_isSome_iff, buildParamValues_mem_keys]

/-- If every referenced name resolves, reference resolution succeeds. -/
theorem resolveRefs_ok_of_all (pv : List (String × ℕ)) :
    ∀ refs, (∀ s ∈ refs, (lookupParam pv s).isSome) →
      ∃ vs, resolveRefs pv refs = .ok vs := by
  intro refs
  induction refs with
  | nil => intro _; exact ⟨[], rfl⟩
  | cons s t ih =>
    intro h
    rcases Option.isSome_iff_exists.1 (h s (List.mem_cons_self s t)) with ⟨v, hv⟩
    rcases ih (fun x hx => h x (List.mem_cons_of_mem s hx)) with ⟨vs, hvs⟩
    exact ⟨v :: vs, by rw [resolveRefs, hv, hvs]⟩

/-- If some referenced name is absent, reference resolution raises an
error naming an absent referenced name. -/
theorem resolveRefs_error_of_missing (pv : List (String × ℕ)) :
    ∀ refs, (∃ s ∈ refs, lookupParam pv s = none) →
      ∃ m, resolveRefs pv refs = .error m ∧ m.param ∈ refs ∧
        lookupParam pv m.param = none := by
  intro refs
  induction refs with
  | nil => intro h; simp at h
  | cons s t ih =>
    intro h
    cases hs : lookupParam pv s with
    | none =>
      exact ⟨⟨s⟩, by rw [resolveRefs, hs], List.mem_cons_self s t, hs⟩
    | some v =>
      have hex : ∃ x ∈ t, lookupParam pv x = none := by
        rcases h with ⟨x, hx, hxn⟩
        rcases List.mem_cons.1 hx with rfl | hxt
        · rw [hs] at hxn; cases hxn
        · exact ⟨x, hxt, hxn⟩
      rcases ih hex with ⟨m, hm, hmem, hmn⟩
      cases hrr : resolveRefs pv t with
      | error e =>
        rw [hrr] at hm
        injection hm with he
        refine ⟨m, ?_, List.mem_cons_of_mem s hmem, hmn⟩
        rw [resolveRefs, hs, hrr, he]
      | ok vs =>
        rw [hrr] at hm
        cases hm

/-- If every name referenced by the operation resolves, its key is
determined. -/
theorem resolveOpKey_ok (gen : ℕ → ℕ) (maxKey : ℕ) (pv : List (String × ℕ))
    (op : TemplateOp) (c : ℕ) (h : ∀ s ∈ opRefs op, (lookupParam pv s).isSome) :
    ∃ key c1, resolveOpKey gen maxKey pv op c = (.ok key, c1) := by
  cases hp : op.params with
  | none =>
    refine ⟨op.key ++ "_" ++ toString (randint gen 1 maxKey c).1,
      (randint gen 1 maxKey c).2, ?_⟩
    unfold resolveOpKey
    rw [hp]
  | some pr =>
    rcases resolveRefs_ok_of_all pv (opRefs op) h with ⟨vs, hvs⟩
    refine ⟨op.key ++ "_" ++ joinUnderscore (vs.map toString), c, ?_⟩
    unfold resolveOpKey
    rw [hp, hvs]

/-- If some name referenced by the operation is absent, key resolution
raises an error naming such a name. -/
theorem resolveOpKey_error (gen : ℕ → ℕ) (maxKey : ℕ) (pv : List (String × ℕ))
    (op : TemplateOp) (c : ℕ) (h : ∃ s ∈ opRefs op, lookupParam pv s = none) :
    ∃ m, resolveOpKey gen maxKey pv op c = (.error m, c) ∧
      m.param ∈ opRefs op ∧ lookupParam pv m.param = none := by
  cases hp : op.params with
  | none =>
    rw [show opRefs op = [] from by unfold opRefs; rw [hp]] at h
    simp at h
  | some pr =>
    rcases resolveRefs_error_of_missing pv (opRefs op) h with ⟨m, hm, hmem, hmn⟩
    exact ⟨m, by unfold resolveOpKey; rw [hp, hm], hmem, hmn⟩

/-- If no operation of the list references an absent name, instantiation of
the operation list succeeds. -/
theorem instantiate_template_ok_of_all (gen : ℕ → ℕ) (maxKey : ℕ)
    (pv : List (String × ℕ)) :
    ∀ ops c, (∀ op ∈ ops, ∀ s ∈ opRefs op, (lookupParam pv s).isSome) →
      ∃ l c', instantiate_template gen maxKey pv ops c = (.ok l, c') := by
  intro ops
  induction ops with
  | nil => intro c _; exact ⟨[], c, rfl⟩
  | cons op rest ih =>
    intro c h
    rcases resolveOpKey_ok gen maxKey pv op c
        (h op (List.mem_cons_self op rest)) with ⟨key, c1, hk⟩
    rcases ih c1 (fun o ho s hs => h o (List.mem_cons_of_mem op ho) s hs)
      with ⟨l, c', hrec⟩
    refine ⟨emitOp op key ++ l, c', ?_⟩
    rw [instantiate_template, hk]
    dsimp only
    rw [hrec]

/-- If some operation references an absent name, instantiation raises an
error naming an absent referenced name of one of the operations. -/
theorem instantiate_template_error_of_missing (gen : ℕ → ℕ) (maxKey : ℕ)
    (pv : List (String × ℕ)) :
    ∀ ops c, (∃ op ∈ ops, ∃ s ∈ opRefs op, lookupParam pv s = none) →
      ∃ m c', instantiate_template gen maxKey pv ops c = (.error m, c') ∧
        ∃ op ∈ ops, m.param ∈ opRefs op ∧ lookupParam pv m.param = none := by
  intro ops
  induction ops with
  | nil => intro c h; simp at h
  | cons op rest ih =>
    intro c h
    by_cases hop : ∀ s ∈ opRefs op, (lookupParam pv s).isSome
    · rcases resolveOpKey_ok gen maxKey pv op c hop with ⟨key, c1, hk⟩
      have hrest : ∃ o ∈ rest, ∃ s ∈ opRefs o, lookupParam pv s = none := by
        rcases h with ⟨o, ho, s, hsm, hsn⟩
        rcases List.mem_cons.1 ho with rfl | hot
        · exact absurd (hop s hsm) (by rw [hsn]; simp)
        · exact ⟨o, hot, s, hsm, hsn⟩
      rcases ih c1 hrest with ⟨m, c', hrec, o, ho, hmm, hmn⟩
      refine ⟨m, c', ?_, o, List.mem_cons_of_mem op ho, hmm, hmn⟩
      rw [instantiate_template, hk]
      dsimp only
      rw [hrec]
    · push_neg at hop
      have hex : ∃ s ∈ opRefs op, lookupParam pv s = none := by
        rcases hop with ⟨s, hs, hn⟩
        exact ⟨s, hs, Option.not_isSome_iff_eq_none.1 hn⟩
      rcases resolveOpKey_error gen maxKey pv op c hex with ⟨m, hk, hmm, hmn⟩
      refine ⟨m, c, ?_, op, List.mem_cons_self op rest, hmm, hmn⟩
      rw [instantiate_template, hk]

/-- A template none of whose operations references an undeclared name
instantiates successfully, any number of times. -/
theorem instLoop_ok_of_not_faulty (gen : ℕ → ℕ) (maxKey : ℕ) (t : Template)
    (hnf : ¬ templateFaulty t) :
    ∀ n i c, ∃ l c', instLoop gen maxKey t n i c = (.ok l, c') := by
  intro n
  induction n with
  | zero => intro i c; exact ⟨[], c, rfl⟩
  | succ n ih =>
    intro i c
    rcases hpv : buildParamValues gen maxKey t.params c with ⟨pv, c1⟩
    have hall : ∀ op ∈ t.operations, ∀ s ∈ opRefs op,
        (lookupParam pv s).isSome := by
      intro op hop s hs
      have hmem : s ∈ t.params := by
        by_contra hsn
        exact hnf ⟨op, hop, s, hs, hsn⟩
      have hsome := (lookup_buildParamValues_isSome gen maxKey t.params c s).2 hmem
      rw [hpv] at hsome
      exact hsome
    rcases instantiate_template_ok_of_all gen maxKey pv t.operations c1 hall
      with ⟨ops, c2, hit⟩
    rcases ih (i+1) c2 with ⟨l, c', hrec⟩
    refine ⟨⟨t.name ++ "_" ++ toString i, t.isolationLevel, ops⟩ :: l, c', ?_⟩
    rw [instLoop, hpv]
    dsimp only
    rw [hit]
    dsimp only
    rw [hrec]

/-- A faulty template makes its very first instantiation raise a
missing-parameter error whose parameter is referenced by one of its
operations and undeclared. -/
theorem instLoop_error_of_faulty (gen : ℕ → ℕ) (maxKey : ℕ) (t : Template)
    (hf : templateFaulty t) (n i c : ℕ) :
    ∃ m c', instLoop gen maxKey t (n+1) i c = (.error m, c') ∧
      ∃ op ∈ t.operations, m.param ∈ opRefs op ∧ m.param ∉ t.params := by
  rcases hpv : buildParamValues gen maxKey t.params c with ⟨pv, c1⟩
  have hiso : ∀ s, (lookupParam pv s).isSome ↔ s ∈ t.params := by
    intro s
    have h0 := lookup_buildParamValues_isSome gen maxKey t.params c s
    rw [hpv] at h0
    exact h0
  have hex : ∃ op ∈ t.operations, ∃ s ∈ opRefs op, lookupParam pv s = none := by
    rcases hf with ⟨op, hop, s, hs, hsn⟩
    refine ⟨op, hop, s, hs, Option.not_isSome_iff_eq_none.1 ?_⟩
    intro hsome
    exact hsn ((hiso s).1 hsome)
  rcases instantiate_template_error_of_missing gen maxKey pv t.operations c1 hex
    with ⟨m, c2, hit, op, hop, hmm, hmn⟩
  refine ⟨m, c2, ?_, op, hop, hmm, ?_⟩
  · rw [instLoop, hpv]
    dsimp only
    rw [hit]
  · intro hmem
    have hsome := (hiso m.param).2 hmem
    rw [hmn] at hsome
    cases hsome

/-- The error reported for a template list names a parameter referenced by
some operation of one of the templates but not declared by that
template. -/
def errNamed (ts : List Template) (m : MissingParamError) : Prop :=
  ∃ t ∈ ts, ∃ op ∈ t.operations, m.param ∈ opRefs op ∧ m.param ∉ t.params

/-- `max(1, round(...))` instances is always at least one instance. -/
theorem templateCount_pos (totalTxns : ℕ) (t : Template) :
    ∃ k, templateCount totalTxns t = k + 1 := by
  have h1 : (1 : ℤ) ≤ max 1 (pyRound ((totalTxns : ℚ) * t.percentage)) :=
    le_max_left _ _
  refine ⟨templateCount totalTxns t - 1, ?_⟩
  unfold templateCount
  omega

/-- A case over templates none of which is faulty instantiates
successfully. -/
theorem instantiate_case_ok_of_all (gen : ℕ → ℕ) (totalTxns maxKey : ℕ) :
    ∀ ts c, (∀ t ∈ ts, ¬ templateFaulty t) →
      ∃ l c', instantiate_case gen totalTxns maxKey ts c = (.ok l, c') := by
  intro ts
  induction ts with
  | nil => intro c _; exact ⟨[], c, rfl⟩
  | cons t rest ih =>
    intro c h
    rcases instLoop_ok_of_not_faulty gen maxKey t (h t (List.mem_cons_self t rest))
        (templateCount totalTxns t) 1 c with ⟨txs, c1, hi⟩
    rcases ih c1 (fun x hx => h x (List.mem_cons_of_mem t hx)) with ⟨more, c2, hrec⟩
    refine ⟨txs ++ more, c2, ?_⟩
    rw [instantiate_case,
      show instantiate_instances gen totalTxns maxKey t c = (.ok txs, c1) from hi]
    dsimp only
    rw [hrec]

/-- A case over templates one of which is faulty raises a missing-parameter
error named after an undeclared referenced parameter. -/
theorem instantiate_case_error_of_faulty (gen : ℕ → ℕ) (totalTxns maxKey : ℕ) :
    ∀ ts c, (∃ t ∈ ts, templateFaulty t) →
      ∃ m c', instantiate_case gen totalTxns maxKey ts c = (.error m, c') ∧
        errNamed ts m := by
  intro ts
  induction ts with
  | nil => intro c h; simp at h
  | cons t rest ih =>
    intro c h
    by_cases hf : templateFaulty t
    · rcases templateCount_pos totalTxns t with ⟨k, hk⟩
      rcases instLoop_error_of_faulty gen maxKey t hf k 1 c
        with ⟨m, c1, hi, op, hop, hmm, hmn⟩
      refine ⟨m, c1, ?_, t, List.mem_cons_self t rest, op, hop, hmm, hmn⟩
      rw [instantiate_case,
        show instantiate_instances gen totalTxns maxKey t c = (.error m, c1) from by
          unfold instantiate_instances
          rw [hk]
          exact hi]
    · have hrest : ∃ x ∈ rest, templateFaulty x := by
        rcases h with ⟨x, hx, hxf⟩
        rcases List.mem_cons.1 hx with rfl | hxt
        · exact absurd hxf hf
        · exact ⟨x, hxt, hxf⟩
      rcases instLoop_ok_of_not_faulty gen maxKey t hf
          (templateCount totalTxns t) 1 c with ⟨txs, c1, hi⟩
      rcases ih c1 hrest with ⟨m, c2, hrec, hnamed⟩
      refine ⟨m, c2, ?_, ?_⟩
      · rw [instantiate_case,
          show instantiate_instances gen totalTxns maxKey t c = (.ok txs, c1) from hi]
        dsimp only
        rw [hrec]
      · rcases hnamed with ⟨x, hx, hx2⟩
        exact ⟨x, List.mem_cons_of_mem t hx, hx2⟩

/-- A case over a faulty template list fails as a whole, naming an
undeclared referenced parameter. -/
theorem caseWorkload_error_of_faulty (gen2 : ℕ → ℕ → ℕ) (totalTxns maxKey : ℕ)
    (ts : List Template) (caseNum : ℕ) (h : ∃ t ∈ ts, templateFaulty t) :
    ∃ m, caseWorkload gen2 totalTxns maxKey ts caseNum = .error m ∧
      errNamed ts m := by
  rcases instantiate_case_error_of_faulty (gen2 caseNum) totalTxns maxKey ts 0 h
    with ⟨m, c', hic, hnamed⟩
  refine ⟨m, ?_, hnamed⟩
  unfold caseWorkload
  dsimp only
  rw [hic]

/-- A case over templates none of which is faulty produces a workload. -/
theorem caseWorkload_ok_of_all (gen2 : ℕ → ℕ → ℕ) (totalTxns maxKey : ℕ)
    (ts : List Template) (caseNum : ℕ) (h : ∀ t ∈ ts, ¬ templateFaulty t) :
    ∃ w, caseWorkload gen2 totalTxns maxKey ts caseNum = .ok w := by
  rcases instantiate_case_ok_of_all (gen2 caseNum) totalTxns maxKey ts 0 h
    with ⟨l, c', hic⟩
  refine ⟨⟨(pyShuffle (gen2 caseNum) l c').1⟩, ?_⟩
  unfold caseWorkload
  dsimp only
  rw [hic]

/-- For a faulty benchmark the very first case raises, so no file of that
benchmark is ever written. -/
theorem casesLoop_error_of_faulty (gen2 : ℕ → ℕ → ℕ) (totalTxns maxKey : ℕ)
    (b : BenchEntry) (hf : benchFaulty b) (n i : ℕ) :
    ∃ m, casesLoop gen2 totalTxns maxKey b (n+1) i = (some m, []) ∧
      errNamed b.templates m := by
  rcases caseWorkload_error_of_faulty gen2 totalTxns maxKey b.templates i hf
    with ⟨m, hcw, hnamed⟩
  exact ⟨m, by rw [casesLoop, hcw], hnamed⟩

/-- For a non-faulty benchmark every case succeeds: no error is reported,
every written file belongs to this benchmark, and one file is written for
every case number of the range. -/
theorem casesLoop_ok_of_not_faulty (gen2 : ℕ → ℕ → ℕ) (totalTxns maxKey : ℕ)
    (b : BenchEntry) (hnf : ¬ benchFaulty b) :
    ∀ n i, (casesLoop gen2 totalTxns maxKey b n i).1 = none ∧
      (∀ f ∈ (casesLoop gen2 totalTxns maxKey b n i).2, f.bench = b.name) ∧
      ∀ j, i ≤ j → j < i + n →
        ∃ f ∈ (casesLoop gen2 totalTxns maxKey b n i).2,
          f.bench = b.name ∧ f.caseNum = j := by
  have hall : ∀ t ∈ b.templates, ¬ templateFaulty t := by
    intro t ht htf
    exact hnf ⟨t, ht, htf⟩
  intro n
  induction n with
  | zero =>
    intro i
    refine ⟨rfl, ?_, ?_⟩
    · intro f hf2
      simp only [casesLoop, List.not_mem_nil] at hf2
    · intro j h1 h2
      omega
  | succ n ih =>
    intro i
    rcases caseWorkload_ok_of_all gen2 totalTxns maxKey b.templates i hall
      with ⟨w, hcw⟩
    rcases ih (i+1) with ⟨ih1, ih2, ih3⟩
    rcases hcl : casesLoop gen2 totalTxns maxKey b n (i+1) with ⟨err, rest⟩
    rw [hcl] at ih1
    dsimp only at ih1
    have ih2b : ∀ f ∈ rest, f.bench = b.name := by
      intro f hfr
      apply ih2
      rw [hcl]
      exact hfr
    have ih3b : ∀ j, i + 1 ≤ j → j < i + 1 + n →
        ∃ f ∈ rest, f.bench = b.name ∧ f.caseNum = j := by
      intro j h1 h2
      rcases ih3 j h1 h2 with ⟨f, hfm, hfp⟩
      rw [hcl] at hfm
      exact ⟨f, hfm, hfp⟩
    have hred : casesLoop gen2 totalTxns maxKey b (n+1) i =
        (err, ⟨b.name, i, w⟩ :: rest) := by
      rw [casesLoop, hcw, hcl]
    refine ⟨?_, ?_, ?_⟩
    · rw [hred]
      exact ih1
    · intro f hf2
      rw [hred] at hf2
      dsimp only at hf2
      rcases List.mem_cons.1 hf2 with rfl | hft
      · rfl
      · exact ih2b f hft
    · intro j h1 h2
      rw [hred]
      by_cases hj : j = i
      · subst hj
        exact ⟨⟨b.name, j, w⟩, List.mem_cons_self _ _, rfl, rfl⟩
      · rcases ih3b j (by omega) (by omega) with ⟨f, hfm, hfp⟩
        exact ⟨f, List.mem_cons_of_mem _ hfm, hfp⟩

/-- The benchmark loop on a sorted list splitting as well-formed benchmarks
followed by the first faulty one: the run fails naming an undeclared
referenced parameter of the faulty benchmark, every written file belongs to
one of the earlier well-formed benchmarks, and each earlier benchmark with
templates has one written file for every case number. -/
theorem benchLoop_split (gen2 : ℕ → ℕ → ℕ) (totalTxns maxKey cases : ℕ)
    (hC : 1 ≤ cases) :
    ∀ (pre : List BenchEntry) (bf : BenchEntry) (post : List BenchEntry),
      (∀ b ∈ pre, ¬ benchFaulty b) → benchFaulty bf →
      (∃ m, (benchLoop gen2 totalTxns maxKey cases (pre ++ bf :: post)).1 =
          some m ∧ errNamed bf.templates m) ∧
        (∀ f ∈ (benchLoop gen2 totalTxns maxKey cases (pre ++ bf :: post)).2,
          ∃ b ∈ pre, f.bench = b.name) ∧
        ∀ b ∈ pre, b.templates ≠ [] → ∀ j, 1 ≤ j → j ≤ cases →
          ∃ f ∈ (benchLoop gen2 totalTxns maxKey cases (pre ++ bf :: post)).2,
            f.bench = b.name ∧ f.caseNum = j := by
  intro pre
  induction pre with
  | nil =>
    intro bf post _ hbf
    have hbt : bf.templates ≠ [] := by
      rcases hbf with ⟨t, ht, _⟩
      intro hnil
      rw [hnil] at ht
      cases ht
    obtain ⟨n, hn⟩ : ∃ n, cases = n + 1 := ⟨cases - 1, by omega⟩
    subst hn
    rcases casesLoop_error_of_faulty gen2 totalTxns maxKey bf hbf n 1
      with ⟨m, hcl, hnamed⟩
    have hred : benchLoop gen2 totalTxns maxKey (n+1) ([] ++ bf :: post) =
        (some m, []) := by
      rw [List.nil_append, benchLoop, if_neg hbt, hcl]
    rw [hred]
    refine ⟨⟨m, rfl, hnamed⟩, ?_, ?_⟩
    · intro f hf2
      simp at hf2
    · intro b hb
      simp at hb
  | cons b pre2 ih =>
    intro bf post hpre hbf
    have hbnf : ¬ benchFaulty b := hpre b (List.mem_cons_self b pre2)
    have hpre2 : ∀ x ∈ pre2, ¬ benchFaulty x :=
      fun x hx => hpre x (List.mem_cons_of_mem b hx)
    rcases ih bf post hpre2 hbf with ⟨⟨m, hm1, hnamed⟩, hfiles, hcases⟩
    by_cases hbt : b.templates = []
    · have hred : benchLoop gen2 totalTxns maxKey cases
          ((b :: pre2) ++ bf :: post) =
          benchLoop gen2 totalTxns maxKey cases (pre2 ++ bf :: post) := by
        rw [List.cons_append, benchLoop, if_pos hbt]
      rw [hred]
      refine ⟨⟨m, hm1, hnamed⟩, ?_, ?_⟩
      · intro f hf2
        rcases hfiles f hf2 with ⟨b2, hb2, hp⟩
        exact ⟨b2, List.mem_cons_of_mem b hb2, hp⟩
      · intro b2 hb2 hb2t j hj1 hj2
        rcases List.mem_cons.1 hb2 with rfl | hb2m
        · exact absurd hbt hb2t
        · exact hcases b2 hb2m hb2t j hj1 hj2
    · rcases casesLoop_ok_of_not_faulty gen2 totalTxns maxKey b hbnf cases 1
        with ⟨hnone, hbench, hper⟩
      rcases hcl : casesLoop gen2 totalTxns maxKey b cases 1 with ⟨err, files⟩
      rw [hcl] at hnone
      dsimp only at hnone
      subst hnone
      have hbench2 : ∀ f ∈ files, f.bench = b.name := by
        intro f hf2
        apply hbench
        rw [hcl]
        exact hf2
      have hper2 : ∀ j, 1 ≤ j → j ≤ cases →
          ∃ f ∈ files, f.bench = b.name ∧ f.caseNum = j := by
        intro j hj1 hj2
        rcases hper j hj1 (by omega) with ⟨f, hfm, hfp⟩
        rw [hcl] at hfm
        exact ⟨f, hfm, hfp⟩
      rcases hbl : benchLoop gen2 totalTxns maxKey cases (pre2 ++ bf :: post)
        with ⟨err2, more⟩
      rw [hbl] at hm1
      dsimp only at hm1
      have hred : benchLoop gen2 totalTxns maxKey cases
          ((b :: pre2) ++ bf :: post) = (err2, files ++ more) := by
        rw [List.cons_append, benchLoop, if_neg hbt, hcl, hbl]
      rw [hred]
      refine ⟨⟨m, hm1, hnamed⟩, ?_, ?_⟩
      · intro f hf2
        dsimp only at hf2
        rcases List.mem_append.1 hf2 with hfl | hfm
        · exact ⟨b, List.mem_cons_self b pre2, hbench2 f hfl⟩
        · have hfm2 : f ∈ (benchLoop gen2 totalTxns maxKey cases
              (pre2 ++ bf :: post)).2 := by
            rw [hbl]
            exact hfm
          rcases hfiles f hfm2 with ⟨b2, hb2, hp⟩
          exact ⟨b2, List.mem_cons_of_mem b hb2, hp⟩
      · intro b2 hb2 hb2t j hj1 hj2
        rcases List.mem_cons.1 hb2 with rfl | hb2m
        · rcases hper2 j hj1 hj2 with ⟨f, hfm, hfp⟩
          exact ⟨f, List.mem_append_left more hfm, hfp⟩
        · rcases hcases b2 hb2m hb2t j hj1 hj2 with ⟨f, hfm, hfp⟩
          have hfm2 : f ∈ more := by
            rw [hbl] at hfm
            exact hfm
          exact ⟨f, List.mem_append_right files hfm2, hfp⟩

/-- C8 (amended): if any operation of any template references an
undeclared parameter name, generation fails with a missing-parameter error
naming an undeclared referenced parameter of the first faulty benchmark in
sorted order; no workload file of the faulty benchmark or of any benchmark
sorted after it is written, while the well-formed benchmarks sorted before
it (those with templates) have already had one workload file per case
written when the error strikes. -/
theorem generate_from_benchmarks_missing_param (gen2 : ℕ → ℕ → ℕ)
    (totalTxns maxKey cases : ℕ) (hC : 1 ≤ cases) (entries : List BenchEntry)
    (pre post : List BenchEntry) (bf : BenchEntry)
    (hsplit : sortEntries entries = pre ++ bf :: post)
    (hpre : ∀ b ∈ pre, ¬ benchFaulty b) (hbf : benchFaulty bf)
    (hnd : (entries.map BenchEntry.name).Nodup) :
    (∃ m, (generate_from_benchmarks gen2 totalTxns maxKey cases entries).1 =
        some m ∧ errNamed bf.templates m) ∧
      (∀ f ∈ (generate_from_benchmarks gen2 totalTxns maxKey cases entries).2,
        ∃ b ∈ pre, f.bench = b.name) ∧
      (∀ f ∈ (generate_from_benchmarks gen2 totalTxns maxKey cases entries).2,
        f.bench ≠ bf.name ∧ ∀ b ∈ post, f.bench ≠ b.name) ∧
      ∀ b ∈ pre, b.templates ≠ [] → ∀ j, 1 ≤ j → j ≤ cases →
        ∃ f ∈ (generate_from_benchmarks gen2 totalTxns maxKey cases entries).2,
          f.bench = b.name ∧ f.caseNum = j := by
  have hnds : ((pre ++ bf :: post).map BenchEntry.name).Nodup := by
    have h0 : ((sortEntries entries).map BenchEntry.name).Nodup :=
      ((List.perm_insertionSort nameLe entries).map BenchEntry.name).nodup_iff.mpr
        hnd
    rw [hsplit] at h0
    exact h0
  rw [List.map_append] at hnds
  rcases List.nodup_append.1 hnds with ⟨_, _, hdisj⟩
  unfold generate_from_benchmarks
  rw [hsplit]
  rcases benchLoop_split gen2 totalTxns maxKey cases hC pre bf post hpre hbf
    with ⟨herr, hfiles, hcases⟩
  refine ⟨herr, hfiles, ?_, hcases⟩
  intro f hf2
  rcases hfiles f hf2 with ⟨b, hb, heq⟩
  have hbn : b.name ∈ pre.map BenchEntry.name := List.mem_map_of_mem _ hb
  constructor
  · intro heq2
    have hbe : b.name = bf.name := by rw [← heq, heq2]
    have h1 : bf.name ∈ pre.map BenchEntry.name := by
      rw [← hbe]
      exact hbn
    have h2 : bf.name ∈ (bf :: post).map BenchEntry.name :=
      List.mem_map_of_mem _ (List.mem_cons_self bf post)
    exact hdisj h1 h2
  · intro b2 hb2 heq2
    have hbe : b.name = b2.name := by rw [← heq, heq2]
    have h1 : b2.name ∈ pre.map BenchEntry.name := by
      rw [← hbe]
      exact hbn
    have h2 : b2.name ∈ (bf :: post).map BenchEntry.name :=
      List.mem_map_of_mem _ (List.mem_cons_of_mem bf hb2)
    exact hdisj h1 h2

/-- A well-formed benchmark whose stem sorts first. -/
def benchA : BenchEntry :=
  ⟨"alpha", [⟨"T", "SERIALIZABLE", 1, [⟨1, "READ", "Acct", none⟩], []⟩]⟩

/-- A benchmark whose only template references the undeclared parameter
`P`. -/
def benchB : BenchEntry :=
  ⟨"beta", [⟨"U", "SERIALIZABLE", 1, [⟨1, "READ", "Acct", some (.inl "P")⟩], []⟩]⟩

/-- C8 counterexample: with two benchmark files, the first well-formed and
the second referencing an undeclared parameter, generation fails with the
missing-parameter error — yet the first benchmark's workload file has
already been written, refuting "aborts generation before any workload file
is written". -/
theorem generate_from_benchmarks_counterexample :
    (generate_from_benchmarks (fun _ _ => 0) 1 1 1 [benchA, benchB]).1 ≠ none ∧
      (generate_from_benchmarks (fun _ _ => 0) 1 1 1 [benchA, benchB]).2 ≠ [] := by
  have hsort : sortEntries [benchA, benchB] = [benchA, benchB] := by
    unfold sortEntries
    simp only [List.insertionSort, List.orderedInsert]
    rw [if_pos (show nameLe benchA benchB from by
      show ("alpha" : String) ≤ "beta"
      rw [String.le_iff_toList_le]
      decide)]
  have hAnf : ¬ benchFaulty benchA := by decide
  have hBf : benchFaulty benchB := by decide
  have hAne : benchA.templates ≠ [] := by decide
  have hBne : benchB.templates ≠ [] := by decide
  rcases caseWorkload_ok_of_all (fun _ _ => 0) 1 1 benchA.templates 1
      (fun t ht htf => hAnf ⟨t, ht, htf⟩) with ⟨w, hcwA⟩
  have hclA : casesLoop (fun _ _ => 0) 1 1 benchA 1 1 =
      (none, [⟨benchA.name, 1, w⟩]) := by
    rw [casesLoop, hcwA]
    rfl
  rcases casesLoop_error_of_faulty (fun _ _ => 0) 1 1 benchB hBf 0 1
    with ⟨m, hclB, _⟩
  have hbl : benchLoop (fun _ _ => 0) 1 1 1 [benchA, benchB] =
      (some m, [⟨benchA.name, 1, w⟩]) := by
    rw [benchLoop, if_neg hAne, hclA]
    dsimp only
    rw [benchLoop, if_neg hBne, hclB]
    rfl
  unfold generate_from_benchmarks
  rw [hsort, hbl]
  constructor
  · simp
  · simp

/-- Witness for the amended C8: the well-formed `alpha` benchmark sorted
before the faulty `beta` benchmark. -/
theorem generate_from_benchmarks_missing_param_witness :
    1 ≤ 1 ∧
    sortEntries [benchA, benchB] = [benchA] ++ benchB :: [] ∧
    (∀ b ∈ [benchA], ¬ benchFaulty b) ∧
    benchFaulty benchB ∧
    (([benchA, benchB].map BenchEntry.name).Nodup) ∧
    ((∃ m, (generate_from_benchmarks (fun _ _ => 0) 1 1 1 [benchA, benchB]).1 =
        some m ∧ errNamed benchB.templates m) ∧
      (∀ f ∈ (generate_from_benchmarks (fun _ _ => 0) 1 1 1 [benchA, benchB]).2,
        ∃ b ∈ [benchA], f.bench = b.name) ∧
      (∀ f ∈ (generate_from_benchmarks (fun _ _ => 0) 1 1 1 [benchA, benchB]).2,
        f.bench ≠ benchB.name ∧ ∀ b ∈ ([] : List BenchEntry), f.bench ≠ b.name) ∧
      ∀ b ∈ [benchA], b.templates ≠ [] → ∀ j, 1 ≤ j → j ≤ 1 →
        ∃ f ∈ (generate_from_benchmarks (fun _ _ => 0) 1 1 1 [benchA, benchB]).2,
          f.bench = b.name ∧ f.caseNum = j) := by
  have hsplit : sortEntries [benchA, benchB] = [benchA] ++ benchB :: [] := by
    unfold sortEntries
    simp only [List.insertionSort, List.orderedInsert]
    rw [if_pos (show nameLe benchA benchB from by
      show ("alpha" : String) ≤ "beta"
      rw [String.le_iff_toList_le]
      decide)]
    rfl
  exact ⟨le_refl 1, hsplit, by decide, by decide, by decide,
    generate_from_benchmarks_missing_param (fun _ _ => 0) 1 1 1 (le_refl 1)
      [benchA, benchB] [benchA] [] benchB hsplit (by decide) (by decide)
      (by decide)⟩

end MixIso
